import Mathlib

/-!
Verification of the galois language core (parser, notation expander,
evaluator) against its natural-language specification.

The definitions below are a shallow embedding of the Rust sources:
  - `src/syntax.rs`            → `Primitive`, `Expr`, `NotationPattern`,
                                 `Associativity`, `Value`, `Environment`
  - `src/parser/notation.rs`   → `matchPattern`, `expandNotationTemplate`,
                                 `applyFirstNotationRule`, `expandExpr`, `applyNotations`
  - `src/parser/base.rs`       → the `P` combinator library (modelling the
                                 nom combinators used) and `parseBaseProgram`
  - `src/parser/mod.rs`        → `parseProgram`
  - `src/interpreter/evaluator.rs` → `InterpreterError`, `evalExpr`,
                                 `applyFunctionW`, `interpret`
  - `src/ffi/mod.rs`           → `ffiLoadModule`, `ffiCallFunction`
                                 (the concrete Python backend is the
                                 abstract `ExternalSurface` capability)

Modelling conventions:
  - `Rc<Expr>` sharing is immutable, so `Rc<Expr>` is embedded as plain `Expr`.
  - `Rc<RefCell<Environment>>` is mutable and aliased, so environments live in
    an explicit heap (`InterpState.heap`) and a closure stores the index of
    its captured cell, exactly mirroring `Rc` aliasing in `evaluator.rs`.
  - `HashMap<String, V>` (unique keys, last write wins) is embedded as an
    association list with replacing insert.
  - Rust recursion has no fuel; evaluation and the recursive-descent parser
    are embedded with an explicit `Nat` fuel that bounds host-stack nesting
    depth. Exhausted fuel yields `none` / a parse failure; every theorem
    about a terminating computation holds for every sufficient fuel.
  - Machine integers: `i64` literals are `Int` with the explicit
    `-2^63 ≤ v < 2^63` range check of `i64::from_str`; `f64` literals are
    kept as their source text (no float arithmetic occurs in the core).
  - Rust `panic!` / `.unwrap()` failures are a distinct `panic` outcome,
    separate from typed errors.
-/

/-! # Data model (`src/syntax.rs`) -/

mutual
/-- Model of `Primitive` from `syntax.rs`: `Int(i64)`, `Float(f64)`, `String`, `Bool`,
`Array(Vec<Rc<Expr>>)`. The `f64` payload is kept as its literal text since
the core never computes with floats. -/
inductive Primitive where
  | int (i : Int)
  | float (text : String)
  | str (s : String)
  | bool (b : Bool)
  | array (elems : List Expr)

/-- Model of `Expr` from `syntax.rs` (constructor names camel-cased; `FFIDecl`'s
`alias` field is `aliasName` because `alias` is reserved in Lean). -/
inductive Expr where
  | prim (p : Primitive)
  | var (name : String)
  | functionDef (name : String) (params : List String) (body : List Expr)
  | functionCall (callee : Expr) (args : List Expr)
  | ret (e : Expr)
  | assignment (name : String) (e : Expr)
  | ffiDecl (module : String) (name : String) (aliasName : Option String)
  | infixOp (left : Expr) (op : String) (right : Expr)
  | notationDecl (pattern : NotationPattern) (expansion : Expr)

/-- Model of `Associativity` from `syntax.rs`. -/
inductive Associativity where
  | left
  | right
  | none

/-- Model of `NotationPattern` from `syntax.rs`. -/
inductive NotationPattern where
  | mk (pattern : String) (vars : List String)
      (precedence : Option Int) (associativity : Associativity)
end

/-- Field accessor for `NotationPattern.pattern`. -/

def NotationPattern.patternText : NotationPattern → String
  | .mk p _ _ _ => p

/-- Field accessor for the `variables` field of `NotationPattern` (named `vars` here since `variables` is reserved in Lean). -/

def NotationPattern.variablesList : NotationPattern → List String
  | .mk _ v _ _ => v

/-- Model of `Value` from `syntax.rs`. A closure's `Rc<RefCell<Environment>>` is the
index of an environment cell in the interpreter heap. -/

inductive Value where
  | primitive (p : Primitive)
  | function (name : String) (params : List String) (body : List Expr)
      (closureEnv : Nat)
  | ffi (name : String)
  | partialApplication (func : Value) (args : List Value)

/-- Model of `Environment = HashMap<String, Value>` from `syntax.rs`, embedded as an
association list with unique keys. -/

abbrev Environment := List (String × Value)

/-- Model of `HashMap::get`. -/

def envGet : Environment → String → Option Value
  | [], _ => none
  | (k', v') :: rest, k => if k' == k then some v' else envGet rest k

/-- Model of `HashMap::insert` (unique keys: replaces an existing binding). -/

def envInsert : Environment → String → Value → Environment
  | [], k, v => [(k, v)]
  | (k', v') :: rest, k, v =>
    if k' == k then (k, v) :: rest else (k', v') :: envInsert rest k v

/-! # Notation expander (`src/parser/notation.rs`) -/

/-- The private `Notation` struct of `notation.rs`: a declared pattern plus
its expansion template. -/

structure NotationRule where
  pattern : NotationPattern
  expansion : Expr

/-- Model of `match_pattern` from `notation.rs`: only an `InfixOp(left, op, right)`
node can match, and only when the pattern text is literally
`format!("$x {} $y", op)`; the bindings map then gets the hard-coded keys
`"x" ↦ left` and `"y" ↦ right` (a `HashMap<String, Rc<Expr>>`, embedded as
an association list). -/

def matchPattern (e : Expr) (pat : NotationPattern) :
    Option (List (String × Expr)) :=
  match e with
  | .infixOp left op right =>
    if pat.patternText == "$x " ++ op ++ " $y" then
      some [("x", left), ("y", right)]
    else
      none
  | _ => none

/-- Model of `HashMap::get` on the bindings map built by `matchPattern`. -/

def bindingsGet (b : List (String × Expr)) (k : String) : Option Expr :=
  match b with
  | [] => none
  | (k', e) :: rest => if k' == k then some e else bindingsGet rest k

mutual
/-- Model of `expand_notation` from `notation.rs`: substitutes bindings into the
expansion template.  Variables are looked up in the bindings (an unbound
variable is left as a free reference), function calls and infix expressions
are rewritten recursively, and every other node kind is returned unchanged.
The Rust signature returns `Result<_, String>` but no `Err` is ever
constructed in `notation.rs`, so the embedding is total. -/
def expandNotationTemplate (expansion : Expr) (b : List (String × Expr)) : Expr :=
  match expansion with
  | .var name =>
    match bindingsGet b name with
    | some bound => bound
    | none => .var name
  | .functionCall f args =>
    .functionCall (expandNotationTemplate f b) (expandNotationList args b)
  | .infixOp left op right =>
    .infixOp (expandNotationTemplate left b) op (expandNotationTemplate right b)
  | other => other

/-- Model of `args.iter().map(|arg| expand_notation(arg, bindings))` in `notation.rs`. -/
def expandNotationList (es : List Expr) (b : List (String × Expr)) : List Expr :=
  match es with
  | [] => []
  | e :: rest => expandNotationTemplate e b :: expandNotationList rest b
end

/-- The `for notation in notations { if let Some(bindings) = ... }` loop at
the end of `expand_expr`: the first declared notation whose pattern matches
wins, and its expansion is substituted. -/

def applyFirstNotationRule (nots : List NotationRule) (e : Expr) : Option Expr :=
  match nots with
  | [] => none
  | n :: rest =>
    match matchPattern e n.pattern with
    | some b => some (expandNotationTemplate n.expansion b)
    | none => applyFirstNotationRule rest e

mutual
/-- Model of `expand_expr` from `notation.rs`: first expand all children bottom-up,
then try to match the resulting node against the declared notations. -/
def expandExpr (nots : List NotationRule) (e : Expr) : Expr :=
  let expanded :=
    match e with
    | .functionDef name params body =>
      .functionDef name params (expandExprList nots body)
    | .functionCall f args =>
      .functionCall (expandExpr nots f) (expandExprList nots args)
    | .ret e1 => .ret (expandExpr nots e1)
    | .assignment name e1 => .assignment name (expandExpr nots e1)
    | .infixOp left op right =>
      .infixOp (expandExpr nots left) op (expandExpr nots right)
    | other => other
  match applyFirstNotationRule nots expanded with
  | some result => result
  | none => expanded

/-- The `.map(|e| expand_expr(e, notations))` iterations in `expand_expr`
and `apply_notations`. -/
def expandExprList (nots : List NotationRule) (es : List Expr) : List Expr :=
  match es with
  | [] => []
  | e :: rest => expandExpr nots e :: expandExprList nots rest
end

/-- Recognizer for `matches!(expr, Expr::NotationDecl(_, _))`. -/

def isNotationDecl : Expr → Bool
  | .notationDecl _ _ => true
  | _ => false

/-- The `filter_map` in `apply_notations` turning the partitioned
`NotationDecl` expressions into `Notation` rules. -/

def notationRules (decls : List Expr) : List NotationRule :=
  decls.filterMap fun e =>
    match e with
    | .notationDecl pattern expansion => some ⟨pattern, expansion⟩
    | _ => Option.none

/-- Model of `apply_notations` from `notation.rs`: partition the top-level list into
notation declarations and remaining expressions, build the rule list, and
expand every remaining expression.  (The Rust `Result<_, String>` carries no
error: no `Err` is ever built in `notation.rs`.) -/

def applyNotations (ast : List Expr) : List Expr :=
  let parts := ast.partition isNotationDecl
  expandExprList (notationRules parts.fst) parts.snd

/-! # Structural helpers and lemmas about the expander -/

/-- Head-constructor test: is the node an `InfixOp`? -/

def isInfixNode : Expr → Bool
  | .infixOp _ _ _ => true
  | _ => false

/-- Head-constructor test: is the node a `Variable`? -/

def isVarNode : Expr → Bool
  | .var _ => true
  | _ => false

/-- Head-constructor test: is the node a `FunctionCall`? -/

def isCallNode : Expr → Bool
  | .functionCall _ _ => true
  | _ => false

/-- Discriminant of the head constructor of an `Expr`, used to state that a
rewrite preserves the node kind. -/

def headTag : Expr → Nat
  | .prim _ => 0
  | .var _ => 1
  | .functionDef _ _ _ => 2
  | .functionCall _ _ => 3
  | .ret _ => 4
  | .assignment _ _ => 5
  | .ffiDecl _ _ _ => 6
  | .infixOp _ _ _ => 7
  | .notationDecl _ _ => 8

mutual
/-- No subterm of `e` (including `e` itself) is an `InfixOp` matched by one
of the declared notations. -/
def matchFreeExpr (nots : List NotationRule) : Expr → Bool
  | .functionDef _ _ body => matchFreeList nots body
  | .functionCall f args => matchFreeExpr nots f && matchFreeList nots args
  | .ret e => matchFreeExpr nots e
  | .assignment _ e => matchFreeExpr nots e
  | .infixOp l op r =>
    matchFreeExpr nots l && matchFreeExpr nots r &&
      (applyFirstNotationRule nots (.infixOp l op r)).isNone
  | _ => true

/-- Predicate `matchFreeExpr` over a list of expressions. -/
def matchFreeList (nots : List NotationRule) : List Expr → Bool
  | [] => true
  | e :: es => matchFreeExpr nots e && matchFreeList nots es
end

/-! # Parser combinators (the nom combinators used by `src/parser/base.rs`)

The input is the remaining character list.  `POut.panic` models a Rust
`panic!`/`.unwrap()` inside a `map` closure; it propagates through every
combinator (a panic unwinds, it is not a recoverable parse error).  Error
values (`VerboseError` context chains) are not modelled: every parse failure
is the bare `POut.err`. -/

/-- Parser outcome: success with remaining input, recoverable error, or a
Rust panic. -/

inductive POut (α : Type) where
  | ok (rest : List Char) (val : α)
  | err
  | panic

/-- A nom-style parser over character lists. -/

abbrev P (α : Type) := List Char → POut α

/-- nom `map(parser, f)` with a total closure. -/

def pmap {α β : Type} (p : P α) (f : α → β) : P β := fun i =>
  match p i with
  | .ok r a => .ok r (f a)
  | .err => .err
  | .panic => .panic

/-- nom `map(parser, f)` where the Rust closure can panic (`.unwrap()` /
`panic!`): `f` returning `none` is the panic. -/

def pmapPanic {α β : Type} (p : P α) (f : α → Option β) : P β := fun i =>
  match p i with
  | .ok r a =>
    match f a with
    | some b => .ok r b
    | none => .panic
  | .err => .err
  | .panic => .panic

/-- Sequencing of parsers (the `?`-chaining underlying nom's tuple
combinators). -/

def pseq {α β : Type} (p : P α) (q : α → P β) : P β := fun i =>
  match p i with
  | .ok r a => q a r
  | .err => .err
  | .panic => .panic

/-- A parser that always fails (zero fuel for the recursive grammar). -/

def pfail {α : Type} : P α := fun _ => .err

/-- nom `alt` for two branches; `alt((a, b, c))` is written
`altP a (altP b c)`.  Only a recoverable error tries the next branch; a
panic unwinds. -/

def altP {α : Type} (p q : P α) : P α := fun i =>
  match p i with
  | .err => q i
  | r => r

/-- nom `value(b, parser)`. -/

def pvalue {α β : Type} (b : β) (p : P α) : P β := pmap p (fun _ => b)

/-- nom `tag(s)`. -/

def tagP (s : String) : P (List Char) := fun i =>
  if s.toList.isPrefixOf i then .ok (i.drop s.toList.length) s.toList else .err

/-- nom `char(c)`. -/

def charP (c : Char) : P Char := fun i =>
  match i with
  | [] => .err
  | c' :: r => if c' == c then .ok r c else .err

/-- nom `one_of(s)`. -/

def oneOfP (s : String) : P Char := fun i =>
  match i with
  | [] => .err
  | c :: r => if s.toList.contains c then .ok r c else .err

/-- nom `take_while1(f)`, also the shape of `digit1`, `alpha1`,
`alphanumeric1` and `multispace1`. -/

def takeWhile1P (f : Char → Bool) : P (List Char) := fun i =>
  let t := i.takeWhile f
  if t.isEmpty then .err else .ok (i.drop t.length) t

/-- nom `digit1`. -/

def digit1P : P (List Char) := takeWhile1P (fun c => c.isDigit)

/-- nom `alpha1` (ASCII letters). -/

def alpha1P : P (List Char) := takeWhile1P (fun c => c.isAlpha)

/-- nom `alphanumeric1` (ASCII letters and digits). -/

def alphanumeric1P : P (List Char) := takeWhile1P (fun c => c.isAlphanum)

/-- nom `multispace1` (spaces, tabs, carriage returns, newlines). -/

def multispace1P : P (List Char) :=
  takeWhile1P (fun c => c == ' ' || c == '\t' || c == '\r' || c == '\n')

/-- Scanner for `take_until`: the consumed prefix up to (excluding) the
first occurrence of the pattern, or `none` when the pattern never occurs. -/

def takeUntilGo (pat : List Char) : List Char → Option (List Char × List Char)
  | [] => if pat.isPrefixOf ([] : List Char) then some ([], []) else none
  | c :: rest =>
    if pat.isPrefixOf (c :: rest) then some ([], c :: rest)
    else
      match takeUntilGo pat rest with
      | some (cs, r) => some (c :: cs, r)
      | none => none

/-- nom `take_until(s)`: consumes up to the first occurrence of `s`,
leaving `s` itself unconsumed; fails when `s` does not occur. -/

def takeUntilP (s : String) : P (List Char) := fun i =>
  match takeUntilGo s.toList i with
  | some (cs, r) => .ok r cs
  | none => .err

/-- nom `opt(parser)`. -/

def optP {α : Type} (p : P α) : P (Option α) := fun i =>
  match p i with
  | .ok r a => .ok r (some a)
  | .err => .ok i none
  | .panic => .panic

/-- nom `recognize(parser)`: the chunk of input the inner parser consumed. -/

def recognizeP {α : Type} (p : P α) : P (List Char) := fun i =>
  match p i with
  | .ok r _ => .ok r (i.take (i.length - r.length))
  | .err => .err
  | .panic => .panic

/-- Loop of nom `many0`, fuelled by the remaining input length; like nom it
fails when the inner parser succeeds without consuming input. -/

def many0Go {α : Type} (p : P α) : Nat → List Char → POut (List α)
  | 0, _ => .err
  | n + 1, i =>
    match p i with
    | .err => .ok i []
    | .panic => .panic
    | .ok r a =>
      if r.length == i.length then .err
      else
        match many0Go p n r with
        | .ok r2 as => .ok r2 (a :: as)
        | .err => .err
        | .panic => .panic

/-- nom `many0`. -/

def many0P {α : Type} (p : P α) : P (List α) := fun i =>
  many0Go p (i.length + 1) i

/-- nom `many1`: one mandatory parse followed by the `many0` loop. -/

def many1P {α : Type} (p : P α) : P (List α) := fun i =>
  match p i with
  | .err => .err
  | .panic => .panic
  | .ok r a =>
    match many0P p r with
    | .ok r2 as => .ok r2 (a :: as)
    | .err => .err
    | .panic => .panic

/-- Loop of nom `separated_list0`, fuelled by the remaining input length;
like nom it fails when separator plus element consume nothing. -/

def sepGo {α β : Type} (sep : P β) (p : P α) :
    Nat → List Char → List α → POut (List α)
  | 0, _, _ => .err
  | n + 1, i, acc =>
    match sep i with
    | .err => .ok i acc
    | .panic => .panic
    | .ok i1 _ =>
      match p i1 with
      | .err => .ok i acc
      | .panic => .panic
      | .ok i2 o =>
        if i2.length == i.length then .err
        else sepGo sep p n i2 (acc ++ [o])

/-- nom `separated_list0(sep, elem)`. -/

def separatedList0P {α β : Type} (sep : P β) (p : P α) : P (List α) := fun i =>
  match p i with
  | .err => .ok i []
  | .panic => .panic
  | .ok i1 o => sepGo sep p (i1.length + 1) i1 [o]

/-- nom `all_consuming(parser)`: succeeds only when the inner parser leaves
no remaining input. -/

def allConsumingP {α : Type} (p : P α) : P α := fun i =>
  match p i with
  | .ok r a => if r.isEmpty then .ok r a else .err
  | .err => .err
  | .panic => .panic

/-- nom `pair(a, b)`. -/

def pairP {α β : Type} (p : P α) (q : P β) : P (α × β) :=
  pseq p (fun a => pmap q (fun b => (a, b)))

/-- nom `preceded(a, b)`. -/

def precededP {α β : Type} (p : P α) (q : P β) : P β :=
  pseq p (fun _ => q)

/-- nom `terminated(a, b)`. -/

def terminatedP {α β : Type} (p : P α) (q : P β) : P α :=
  pseq p (fun a => pmap q (fun _ => a))

/-- nom `delimited(a, b, c)`. -/

def delimitedP {α β γ : Type} (p : P α) (q : P β) (r : P γ) : P β :=
  pseq p (fun _ => pseq q (fun b => pmap r (fun _ => b)))

/-- nom `context(label, parser)`: the label only decorates the error chain,
which is not modelled. -/

def contextP {α : Type} (_label : String) (p : P α) : P α := p

/-! # Grammar (`src/parser/base.rs`)

The grammar is mutually recursive through `parse_expr`; the embedding gives
`parseExpr` a `Nat` fuel bounding grammar nesting depth (each recursive
reference steps down one level; exhausted fuel is a parse failure) and every
other production takes the recursive reference `pe` as a parameter. -/

/-- Whitespace/comment skipper `ws` from `base.rs`. -/

def ws : P Unit :=
  pvalue () (many0P (altP (pvalue () multispace1P)
    (altP (pvalue () (precededP (tagP "//") (takeUntilP "\n")))
      (pvalue () (delimitedP (tagP "/*") (takeUntilP "*/") (tagP "*/"))))))

/-- Digit run to a natural number (the numeric value of the literal). -/

def digitsToNat (ds : List Char) : Nat :=
  ds.foldl (fun a c => a * 10 + (c.toNat - '0'.toNat)) 0

/-- Model of `<i64 as FromStr>::from_str` on a recognized integer literal
(optional minus sign, then digits): `none` exactly when the value does not
fit in `i64`, i.e. outside `[-2^63, 2^63 - 1]`. -/

def rustParseI64 (s : List Char) : Option Int :=
  match s with
  | '-' :: ds =>
    let v := digitsToNat ds
    if v ≤ 2 ^ 63 then some (-(v : Int)) else none
  | ds =>
    let v := digitsToNat ds
    if v ≤ 2 ^ 63 - 1 then some ((v : Int)) else none

/-- Model of `parse_int` from `base.rs`: `map(recognize(pair(opt(char('-')), digit1)),
|s| s.parse().unwrap())` — the `.unwrap()` panics when the literal does not
fit in `i64`. -/

def parseIntP : P Int :=
  contextP "integer"
    (pmapPanic (recognizeP (pairP (optP (charP '-')) digit1P)) rustParseI64)

/-- Model of `parse_float` from `base.rs`.  `f64::from_str` never fails on a literal
of the recognized shape, so the embedded value is the literal text. -/

def parseFloatP : P String :=
  contextP "float"
    (pmap
      (recognizeP (pairP (optP (charP '-')) (pairP digit1P (pairP (charP '.')
        (pairP digit1P (optP (pairP (oneOfP "eE")
          (pairP (optP (oneOfP "+-")) digit1P))))))))
      (fun s => String.mk s))

/-- Model of `parse_string` from `base.rs`: a double-quoted string with the five
escape sequences `\"`, `\\`, `\n`, `\r`, `\t`. -/

def parseStringP : P String :=
  contextP "string"
    (delimitedP (charP '"')
      (pmap
        (many0P (altP
          (pmap (takeWhile1P (fun c => !(c == '"') && !(c == '\\')))
            (fun cs => String.mk cs))
          (altP (pmap (tagP "\\\"") (fun _ => "\""))
            (altP (pmap (tagP "\\\\") (fun _ => "\\"))
              (altP (pmap (tagP "\\n") (fun _ => "\n"))
                (altP (pmap (tagP "\\r") (fun _ => "\r"))
                  (pmap (tagP "\\t") (fun _ => "\t"))))))))
        (fun chunks => String.join chunks))
      (charP '"'))

/-- Model of `parse_bool` from `base.rs`. -/

def parseBoolP : P Bool :=
  contextP "boolean"
    (altP (pvalue true (tagP "true")) (pvalue false (tagP "false")))

/-- Model of `parse_array` from `base.rs`. -/

def parseArrayP (pe : P Expr) : P (List Expr) :=
  contextP "array"
    (delimitedP (charP '[')
      (separatedList0P (delimitedP ws (charP ',') ws) pe)
      (charP ']'))

/-- Model of `parse_primitive` from `base.rs`: float, int, string, bool, array — in
that order. -/

def parsePrimitiveP (pe : P Expr) : P Expr :=
  contextP "primitive"
    (pmap
      (altP (pmap parseFloatP Primitive.float)
        (altP (pmap parseIntP Primitive.int)
          (altP (pmap parseStringP Primitive.str)
            (altP (pmap parseBoolP Primitive.bool)
              (pmap (parseArrayP pe) Primitive.array)))))
      Expr.prim)

/-- Model of `parse_identifier` from `base.rs`: a letter, `_` or `.` followed by any
run of alphanumerics, `_` or `.`. -/

def parseIdentifierP : P (List Char) :=
  recognizeP (pairP (altP alpha1P (altP (tagP "_") (tagP ".")))
    (many0P (altP alphanumeric1P (altP (tagP "_") (tagP ".")))))

/-- Model of `parse_variable` from `base.rs` (same recognizer as `parse_identifier`,
wrapped into an `Expr::Variable`). -/

def parseVariableP : P Expr :=
  contextP "variable"
    (pmap (recognizeP (pairP (altP alpha1P (altP (tagP "_") (tagP ".")))
        (many0P (altP alphanumeric1P (altP (tagP "_") (tagP ".")))))) 
      (fun s => Expr.var (String.mk s)))

/-- Model of `parse_assignment` from `base.rs`; the `panic!("Expected variable name
in assignment")` arm is the `none` of the panicking map. -/

def parseAssignmentP (pe : P Expr) : P Expr :=
  contextP "assignment"
    (pmapPanic (pairP (pairP parseVariableP (delimitedP ws (charP '=') ws)) pe)
      (fun x =>
        match x with
        | ((.var name, _), e) => some (.assignment name e)
        | _ => none))

/-- The parameter extraction loop of `parse_function_def`: every parameter
must be a bare variable, else `panic!("Expected variable in function
parameters")`. -/

def extractParamNames : List Expr → Option (List String)
  | [] => some []
  | .var n :: rest =>
    match extractParamNames rest with
    | some ns => some (n :: ns)
    | none => none
  | _ => none

/-- Model of `parse_function_def` from `base.rs`: optional `fn`, name, parenthesized
comma-separated parameters, braced `;`/whitespace-separated body. -/

def parseFunctionDefP (pe : P Expr) : P Expr :=
  contextP "function definition"
    (pmapPanic
      (pairP (pairP (pairP (pairP
        (precededP (pairP (optP (tagP "fn")) ws) parseVariableP)
        (delimitedP (charP '(')
          (separatedList0P (delimitedP ws (charP ',') ws) parseVariableP)
          (charP ')')))
        (delimitedP ws (charP '{') ws))
        (many0P (terminatedP pe (delimitedP ws (optP (charP ';')) ws))))
        (delimitedP ws (charP '}') ws))
      (fun x =>
        match x with
        | ((((.var name, params), _), body), _) =>
          match extractParamNames params with
          | some ns => some (.functionDef name ns body)
          | none => none
        | _ => none))

/-- Model of `parse_function_call` from `base.rs`: a variable immediately followed by
a parenthesized comma-separated argument list. -/

def parseFunctionCallP (pe : P Expr) : P Expr :=
  contextP "function call"
    (pmap
      (pairP parseVariableP
        (delimitedP (charP '(')
          (separatedList0P (delimitedP ws (charP ',') ws) pe)
          (charP ')')))
      (fun x => Expr.functionCall x.fst x.snd))

/-- Model of `parse_return` from `base.rs`. -/

def parseReturnP (pe : P Expr) : P Expr :=
  contextP "return"
    (pmap (precededP (pairP (tagP "return") ws) pe) Expr.ret)

/-- Model of `parse_term` from `base.rs`: primitive, call, variable or parenthesized
expression, with surrounding whitespace. -/

def parseTermP (pe : P Expr) : P Expr :=
  contextP "term"
    (delimitedP ws
      (altP (parsePrimitiveP pe)
        (altP (parseFunctionCallP pe)
          (altP parseVariableP (delimitedP (charP '(') pe (charP ')')))))
      ws)

/-- Model of `parse_infix_op` from `base.rs`: one or more characters from the
operator character class. -/

def parseInfixOpP : P (List Char) :=
  recognizeP (many1P (oneOfP "!@#$%^&*-+=|<>?/:~"))

/-- Model of `parse_infix_expr` from `base.rs`: a first term then zero or more
(operator, term) pairs folded left-associatively into `InfixOp` nodes. -/

def parseInfixExprP (pe : P Expr) : P Expr := fun i =>
  match parseTermP pe i with
  | .ok r t1 =>
    match many0P (pairP (delimitedP ws parseInfixOpP ws) (parseTermP pe)) r with
    | .ok r2 rest =>
      .ok r2 (rest.foldl (fun acc x => Expr.infixOp acc (String.mk x.fst) x.snd) t1)
    | .err => .err
    | .panic => .panic
  | .err => .err
  | .panic => .panic

/-- Model of `parse_notation_pattern` from `base.rs`: quoted pattern text, optional
`with` variable list, optional `precedence` integer, optional
`associativity`; the variable extraction panics on a non-variable.  The Rust
code narrows the precedence from `i64` to `i32` with `as`; the literals
accepted here fit far below either bound so the embedding keeps the `Int`. -/

def parseNotationPatternP : P NotationPattern :=
  contextP "notation pattern"
    (pmapPanic
      (pairP (pairP (pairP
        (delimitedP (charP '"') (takeUntilP "\"") (charP '"'))
        (optP (precededP (delimitedP ws (tagP "with") ws)
          (separatedList0P (delimitedP ws (charP ',') ws) parseVariableP))))
        (optP (precededP (delimitedP ws (tagP "precedence") ws) parseIntP)))
        (optP (precededP (delimitedP ws (tagP "associativity") ws)
          (altP (pvalue Associativity.left (tagP "left"))
            (altP (pvalue Associativity.right (tagP "right"))
              (pvalue Associativity.none (tagP "none")))))))
      (fun x =>
        match x with
        | (((patternChars, varsOpt), precOpt), assocOpt) =>
          match extractParamNames (varsOpt.getD []) with
          | some ns =>
            some (.mk (String.mk patternChars) ns precOpt
              (assocOpt.getD Associativity.none))
          | none => none))

/-- Model of `parse_notation_decl` from `base.rs`. -/

def parseNotationDeclP (pe : P Expr) : P Expr :=
  contextP "notation declaration"
    (pmap
      (pairP (pairP (precededP (pairP (tagP "notation") ws) parseNotationPatternP)
        (delimitedP ws (tagP ":=") ws)) pe)
      (fun x => Expr.notationDecl x.fst.fst x.snd))

/-- Model of `parse_ffi_decl` from `base.rs`: `from <module> use <name> [as <alias>]`. -/

def parseFfiDeclP : P Expr :=
  contextP "ffi declaration"
    (pmap
      (pairP (pairP (precededP (pairP (tagP "from") ws) parseIdentifierP)
        (precededP (delimitedP ws (tagP "use") ws) parseIdentifierP))
        (optP (precededP (delimitedP ws (tagP "as") ws) parseIdentifierP)))
      (fun x =>
        Expr.ffiDecl (String.mk x.fst.fst) (String.mk x.fst.snd)
          (x.snd.map (fun a => String.mk a))))

/-- Model of `parse_expr` from `base.rs`: function definition, assignment, return or
infix expression, with surrounding whitespace.  The `Nat` fuel bounds the
grammar recursion depth. -/

def parseExpr : Nat → P Expr
  | 0 => pfail
  | n + 1 =>
    contextP "expression"
      (delimitedP ws
        (altP (parseFunctionDefP (parseExpr n))
          (altP (parseAssignmentP (parseExpr n))
            (altP (parseReturnP (parseExpr n)) (parseInfixExprP (parseExpr n)))))
        ws)

/-- Model of `parse_top_level_expr` from `base.rs`. -/

def parseTopLevelExprP (pe : P Expr) : P Expr :=
  contextP "top level expression"
    (altP parseFfiDeclP
      (altP (parseNotationDeclP pe)
        (terminatedP pe (delimitedP ws (optP (charP ';')) ws))))

/-- Model of `parse_program` from `base.rs`:
`all_consuming(delimited(ws, many1(parse_top_level_expr), ws))`. -/

def parseBaseProgram (fuel : Nat) : P (List Expr) :=
  contextP "program"
    (allConsumingP
      (delimitedP ws (many1P (parseTopLevelExprP (parseExpr fuel))) ws))

/-- Outcome of the top-level `parse_program` of `parser/mod.rs`. -/

inductive ParseProgramResult where
  | ok (exprs : List Expr)
  | error
  | panicked

/-- Model of `parse_program` from `parser/mod.rs`: run the base parser, then the
notation pass.  The `!remaining.trim().is_empty()` warning branch there is
dead code (`all_consuming` leaves no remainder on success), and
`apply_notations` never returns `Err`. -/

def parseProgram (fuel : Nat) (input : String) : ParseProgramResult :=
  match parseBaseProgram fuel input.toList with
  | .ok _ ast => .ok (applyNotations ast)
  | .err => .error
  | .panic => .panicked

/-! # External call surface (`src/ffi/mod.rs`)

The concrete `PythonFFI` backend (`ffi/python.rs`) runs foreign code, so it
is embedded as an abstract capability: `create` models `PythonFFI::new()`,
`load` models `FFIProtocol::load_module(module_name, alias)` on the backend,
and `call` models `FFIProtocol::call_function(function_path, args)` on the
backend. -/

/-- Abstract external-call capability standing in for `PythonFFI`. -/

structure ExternalSurface where
  create : Except String Unit
  load : String → Option String → Except String Unit
  call : String → List Value → Except String Value

/-- Scanner for `String::split('.')`. -/

def splitDotsGo : List Char → List Char → List String
  | [], acc => [String.mk acc.reverse]
  | c :: rest, acc =>
    if c == '.' then String.mk acc.reverse :: splitDotsGo rest []
    else splitDotsGo rest (c :: acc)

/-- Rust `module_path.split('.')` (always non-empty). -/

def splitDots (s : String) : List String :=
  splitDotsGo s.toList []

/-- Rust `parts[1..].join(".")`. -/

def joinDots : List String → String
  | [] => ""
  | [s] => s
  | s :: rest => s ++ "." ++ joinDots rest

/-- Interpreter state: the environment heap (each cell one
`Rc<RefCell<Environment>>`), the index of the interpreter's current
environment (`self.env`), and the set of language keys in
`FFIBackend.modules`. -/

structure InterpState where
  heap : List Environment
  cur : Nat
  ffiLoaded : List String

/-- Dereference an environment cell (`closure_env.borrow()`); indices are
always in range in reachable states. -/

def heapGet (st : InterpState) (i : Nat) : Environment :=
  st.heap.getD i []

/-- Mutation of the current environment cell
(`self.env.borrow_mut().insert(..)`), visible through every `Rc` alias of
that cell. -/

def insertCur (st : InterpState) (k : String) (v : Value) : InterpState :=
  { st with heap := st.heap.set st.cur (envInsert (heapGet st st.cur) k v) }

/-- Model of `InterpreterError` from `interpreter/evaluator.rs` — exactly these five
variants (there is no `StackOverflow` and no `UnhandledOperator` variant). -/

inductive InterpreterError where
  | undefinedVariable (name : String)
  | typeMismatch (msg : String)
  | arityMismatch (msg : String)
  | ffiError (msg : String)
  | notReachable (msg : String)

/-- Model of `FFIBackend::load_module` from `ffi/mod.rs`, as invoked by the
evaluator (which passes only the module path, so the backend alias is
`none`): split off the language prefix, instantiate the language backend on
first use (only `"python"` is supported), then delegate the module load.
Note the language key stays registered even if the delegated load fails. -/

def ffiLoadModule (surf : ExternalSurface) (st : InterpState)
    (modulePath : String) : Except String Unit × InterpState :=
  let parts := splitDots modulePath
  let language := parts.headD ""
  let moduleName := joinDots parts.tail
  let ensure : Except String InterpState :=
    if st.ffiLoaded.contains language then .ok st
    else if language == "python" then
      match surf.create with
      | .ok _ => .ok { st with ffiLoaded := language :: st.ffiLoaded }
      | .error e => .error e
    else .error ("Unsupported language: " ++ language)
  match ensure with
  | .error e => (.error e, st)
  | .ok st' =>
    match surf.load moduleName none with
    | .ok _ => (.ok (), st')
    | .error e => (.error e, st')

/-- Model of `FFIBackend::call_function` from `ffi/mod.rs`: split the language
prefix off the qualified function path; if that language was never loaded
the call fails with `"Language not loaded: <language>"`, otherwise the call
is delegated to the backend. -/

def ffiCallFunction (surf : ExternalSurface) (st : InterpState)
    (funcPath : String) (args : List Value) : Except String Value :=
  let parts := splitDots funcPath
  let language := parts.headD ""
  let functionPath := joinDots parts.tail
  if st.ffiLoaded.contains language then surf.call functionPath args
  else .error ("Language not loaded: " ++ language)

/-! # Evaluator (`src/interpreter/evaluator.rs`)

Rust recursion carries no fuel; the `Nat` fuel here bounds the host-stack
nesting depth of `eval_expr`/`apply_function`, stepping down one level at
each nested evaluation.  `none` means the computation did not complete
within that depth (in Rust it is still recursing — there is no depth guard
in the evaluator). -/

/-- Result and post-state of one evaluation step (`&mut self` threading). -/

abbrev EvalOutcome := Option (Except InterpreterError Value × InterpState)

/-- The `args.iter().map(|arg| self.eval_expr(arg)).collect::<Result<..>>()`
loop of `eval_expr`: strictly left to right, short-circuiting on the first
error, threading the interpreter state. -/

def evalArgsWith (ev : InterpState → Expr → EvalOutcome) :
    InterpState → List Expr →
    Option (Except InterpreterError (List Value) × InterpState)
  | st, [] => some (.ok [], st)
  | st, e :: es =>
    match ev st e with
    | none => none
    | some (.error er, st1) => some (.error er, st1)
    | some (.ok v, st1) =>
      match evalArgsWith ev st1 es with
      | none => none
      | some (.error er, st2) => some (.error er, st2)
      | some (.ok vs, st2) => some (.ok (v :: vs), st2)

/-- The `body.iter().try_fold(Value::Primitive(Primitive::Bool(false)),
|_, expr| self.eval_expr(expr))` of `apply_function`: the value of the last
body expression (or `false` for an empty body), stopping at the first
error. -/

def evalBodyWith (ev : InterpState → Expr → EvalOutcome) :
    InterpState → List Expr → EvalOutcome
  | st, [] => some (.ok (Value.primitive (.bool false)), st)
  | st, e :: es =>
    match ev st e with
    | none => none
    | some (.error er, st1) => some (.error er, st1)
    | some (.ok v, st1) =>
      match es with
      | [] => some (.ok v, st1)
      | _ => evalBodyWith ev st1 es

/-- Model of `Interpreter::apply_function` from `evaluator.rs`, parameterized by the
evaluation function `ev` used for the body (one host-stack level deeper).
Note the `Function` arm: any arity difference — `args.len() !=
params.len()`, including fewer arguments — is an `ArityMismatch`; a new
environment cell is allocated from a clone of the closure cell's contents
plus the parameter bindings, and `self.env` is redirected to it (and never
restored afterwards).  The `DebugPrinter::log_entry`/`log_exit` calls only
print (and, in debug mode, panic past a thread-local depth of 1000); they
do not affect the result and are not modelled. -/

def applyFunctionW (ev : InterpState → Expr → EvalOutcome)
    (surf : ExternalSurface) (st : InterpState) :
    Value → List Value → EvalOutcome
  | .function name params body closureEnv, args =>
    if args.length != params.length then
      some (.error (.arityMismatch ("Function '" ++ name ++ "' expects " ++
        toString params.length ++ " arguments, but got " ++
        toString args.length)), st)
    else
      let newEnv := (params.zip args).foldl
        (fun env pa => envInsert env pa.fst pa.snd) (heapGet st closureEnv)
      let st2 : InterpState :=
        { st with heap := st.heap ++ [newEnv], cur := st.heap.length }
      evalBodyWith ev st2 body
  | .ffi ffiName, args =>
    match ffiCallFunction surf st ffiName args with
    | .ok v => some (.ok v, st)
    | .error e => some (.error (.ffiError e), st)
  | .partialApplication func prevArgs, args =>
    applyFunctionW ev surf st func (prevArgs ++ args)
  | .primitive _, _ =>
    some (.error (.typeMismatch "Attempted to call a non-function value"), st)

/-- Model of `Interpreter::eval_expr` from `evaluator.rs`.  The `Nat` fuel steps down
one level at each nested evaluation; `none` models the recursion not having
completed within that host-stack depth. -/

def evalExpr (surf : ExternalSurface) : Nat → InterpState → Expr → EvalOutcome
  | 0, _, _ => none
  | n + 1, st, e =>
    match e with
    | .prim p => some (.ok (Value.primitive p), st)
    | .var name =>
      match envGet (heapGet st st.cur) name with
      | some v => some (.ok v, st)
      | none => some (.error (.undefinedVariable name), st)
    | .functionDef name params body =>
      let funcValue := Value.function name params body st.cur
      some (.ok funcValue, insertCur st name funcValue)
    | .functionCall func args =>
      match evalExpr surf n st func with
      | none => none
      | some (.error er, st1) => some (.error er, st1)
      | some (.ok funcValue, st1) =>
        match evalArgsWith (evalExpr surf n) st1 args with
        | none => none
        | some (.error er, st2) => some (.error er, st2)
        | some (.ok argValues, st2) =>
          applyFunctionW (evalExpr surf n) surf st2 funcValue argValues
    | .ret e1 => evalExpr surf n st e1
    | .assignment name e1 =>
      match evalExpr surf n st e1 with
      | none => none
      | some (.error er, st1) => some (.error er, st1)
      | some (.ok v, st1) => some (.ok v, insertCur st1 name v)
    | .ffiDecl module name aliasName =>
      match ffiLoadModule surf st module with
      | (.error e, st1) => some (.error (.ffiError e), st1)
      | (.ok _, st1) =>
        let ffiName := aliasName.getD name
        some (.ok (Value.primitive (.bool true)),
          insertCur st1 ffiName (Value.ffi name))
    | .infixOp _ _ _ =>
      some (.error (.notReachable
        "Infix operations should be handled by the parser"), st)
    | .notationDecl _ _ =>
      some (.error (.notReachable
        "Notation declarations should be handled by the parser"), st)

/-- The top-level loop of `Interpreter::interpret`. -/

def interpretGo (surf : ExternalSurface) (fuel : Nat) :
    InterpState → Value → List Expr → Option (Except InterpreterError Value)
  | _, acc, [] => some (.ok acc)
  | st, _, e :: es =>
    match evalExpr surf fuel st e with
    | none => none
    | some (.error er, _) => some (.error er)
    | some (.ok v, st1) => interpretGo surf fuel st1 v es

/-- Model of `Interpreter::interpret` from `evaluator.rs` (via `Interpreter::new`):
fresh empty environment, fresh FFI backend, result initialised to `false`,
each top-level expression evaluated in order. -/

def interpret (fuel : Nat) (surf : ExternalSurface) (exprs : List Expr) :
    Option (Except InterpreterError Value) :=
  interpretGo surf fuel ⟨[[]], 0, []⟩ (Value.primitive (.bool false)) exprs

/-- A trivial external surface for closed evaluations that never reach the
surface's `call`. -/

def trivialSurface : ExternalSurface :=
  ⟨.ok (), fun _ _ => .ok (), fun _ _ => .ok (Value.primitive (.bool false))⟩

/-- The empty initial interpreter state built by `Interpreter::new`. -/

def initialState : InterpState := ⟨[[]], 0, []⟩

/-- The recursive call `f()` of Scenario F's base-case-free program. -/

def loopCall : Expr := .functionCall (.var "f") []

/-- Scenario F's program `f() { f() } f()`: unbounded recursion with no base
case. -/

def loopProgram : List Expr := [.functionDef "f" [] [loopCall], loopCall]

/-- The closure built for `f`: its captured cell is heap index 0, the global
environment, in which `f` itself is bound (self-recursion). -/

def loopF : Value := .function "f" [] [loopCall] 0

/-- Scenario E's program: `from python use square` then `square(5)`. -/

def squareProgram : List Expr :=
  [.ffiDecl "python" "square" Option.none,
    .functionCall (.var "square") [.prim (.int 5)]]

theorem matchPattern_eq_none_of_not_infix_node (e : Expr) (pat : NotationPattern)
    (h : isInfixNode e = false) : matchPattern e pat = none := by
  cases e <;> try rfl
  simp [isInfixNode] at h

theorem applyFirstNotation_eq_none_of_not_infix_node (nots : List NotationRule)
    (e : Expr) (h : isInfixNode e = false) :
    applyFirstNotationRule nots e = none := by
  induction nots with
  | nil => rfl
  | cons n rest ih =>
    simp [applyFirstNotationRule, matchPattern_eq_none_of_not_infix_node e n.pattern h, ih]

mutual
theorem expandExpr_id_of_matchFree (nots : List NotationRule) (e : Expr)
    (h : matchFreeExpr nots e = true) : expandExpr nots e = e := by
  cases e with
  | prim p =>
    simp [expandExpr,
      applyFirstNotation_eq_none_of_not_infix_node nots (.prim p) (by simp [isInfixNode])]
  | var name =>
    simp [expandExpr,
      applyFirstNotation_eq_none_of_not_infix_node nots (.var name) (by simp [isInfixNode])]
  | functionDef name params body =>
    have hb : matchFreeList nots body = true := by
      simpa [matchFreeExpr] using h
    simp [expandExpr, expandExprList_id_of_matchFree nots body hb,
      applyFirstNotation_eq_none_of_not_infix_node nots (.functionDef name params body)
        (by simp [isInfixNode])]
  | functionCall f args =>
    have hf : matchFreeExpr nots f = true ∧ matchFreeList nots args = true := by
      simpa [matchFreeExpr, Bool.and_eq_true] using h
    simp [expandExpr, expandExpr_id_of_matchFree nots f hf.1,
      expandExprList_id_of_matchFree nots args hf.2,
      applyFirstNotation_eq_none_of_not_infix_node nots (.functionCall f args)
        (by simp [isInfixNode])]
  | ret e1 =>
    have h1 : matchFreeExpr nots e1 = true := by simpa [matchFreeExpr] using h
    simp [expandExpr, expandExpr_id_of_matchFree nots e1 h1,
      applyFirstNotation_eq_none_of_not_infix_node nots (.ret e1) (by simp [isInfixNode])]
  | assignment name e1 =>
    have h1 : matchFreeExpr nots e1 = true := by simpa [matchFreeExpr] using h
    simp [expandExpr, expandExpr_id_of_matchFree nots e1 h1,
      applyFirstNotation_eq_none_of_not_infix_node nots (.assignment name e1)
        (by simp [isInfixNode])]
  | ffiDecl m n a =>
    simp [expandExpr,
      applyFirstNotation_eq_none_of_not_infix_node nots (.ffiDecl m n a)
        (by simp [isInfixNode])]
  | infixOp l op r =>
    have h3 : matchFreeExpr nots l = true ∧ matchFreeExpr nots r = true ∧
        (applyFirstNotationRule nots (.infixOp l op r)).isNone = true := by
      simpa [matchFreeExpr, Bool.and_eq_true, and_assoc] using h
    have hnone : applyFirstNotationRule nots (.infixOp l op r) = none :=
      Option.isNone_iff_eq_none.mp h3.2.2
    simp [expandExpr, expandExpr_id_of_matchFree nots l h3.1,
      expandExpr_id_of_matchFree nots r h3.2.1, hnone]
  | notationDecl pat ex =>
    simp [expandExpr,
      applyFirstNotation_eq_none_of_not_infix_node nots (.notationDecl pat ex)
        (by simp [isInfixNode])]

theorem expandExprList_id_of_matchFree (nots : List NotationRule)
    (es : List Expr) (h : matchFreeList nots es = true) :
    expandExprList nots es = es := by
  cases es with
  | nil => rfl
  | cons e rest =>
    have h2 : matchFreeExpr nots e = true ∧ matchFreeList nots rest = true := by
      simpa [matchFreeList, Bool.and_eq_true] using h
    simp [expandExprList, expandExpr_id_of_matchFree nots e h2.1,
      expandExprList_id_of_matchFree nots rest h2.2]
end

theorem partition_append_of_all (p : Expr → Bool) (ds es : List Expr)
    (h1 : ds.all p = true) (h2 : es.all (fun e => !p e) = true) :
    (ds ++ es).partition p = (ds, es) := by
  rw [List.partition_eq_filter_filter, List.filter_append, List.filter_append]
  have hds : ds.filter p = ds :=
    List.filter_eq_self.mpr (by simpa [List.all_eq_true] using h1)
  have hes : es.filter p = [] := by
    rw [List.filter_eq_nil_iff]
    intro a ha
    have := (List.all_eq_true.mp h2) a ha
    simpa using this
  have hds' : ds.filter (not ∘ p) = [] := by
    rw [List.filter_eq_nil_iff]
    intro a ha
    have := (List.all_eq_true.mp h1) a ha
    simp [Function.comp, this]
  have hes' : es.filter (not ∘ p) = es :=
    List.filter_eq_self.mpr (by simpa [List.all_eq_true, Function.comp] using h2)
  rw [hds, hes, hds', hes']
  simp

/-! # Claim C10 -/

/-- C10: notation pattern matching applies only to `InfixOp` nodes.  For a
node of any other kind, `match_pattern` returns `None` for every declared
pattern, and `expand_expr` may rewrite the node's children but leaves the
node's own constructor in place (it is never replaced by an expansion). -/

theorem match_pattern_only_infix_nodes (e : Expr) (pat : NotationPattern)
    (nots : List NotationRule) (h : isInfixNode e = false) :
    matchPattern e pat = none ∧ headTag (expandExpr nots e) = headTag e := by
  refine ⟨matchPattern_eq_none_of_not_infix_node e pat h, ?_⟩
  cases e with
  | prim p =>
    simp [expandExpr,
      applyFirstNotation_eq_none_of_not_infix_node nots (.prim p) (by simp [isInfixNode])]
  | var name =>
    simp [expandExpr,
      applyFirstNotation_eq_none_of_not_infix_node nots (.var name) (by simp [isInfixNode])]
  | functionDef name params body =>
    simp [expandExpr, headTag,
      applyFirstNotation_eq_none_of_not_infix_node nots
        (.functionDef name params (expandExprList nots body)) (by simp [isInfixNode])]
  | functionCall f args =>
    simp [expandExpr, headTag,
      applyFirstNotation_eq_none_of_not_infix_node nots
        (.functionCall (expandExpr nots f) (expandExprList nots args))
        (by simp [isInfixNode])]
  | ret e1 =>
    simp [expandExpr, headTag,
      applyFirstNotation_eq_none_of_not_infix_node nots (.ret (expandExpr nots e1))
        (by simp [isInfixNode])]
  | assignment name e1 =>
    simp [expandExpr, headTag,
      applyFirstNotation_eq_none_of_not_infix_node nots
        (.assignment name (expandExpr nots e1)) (by simp [isInfixNode])]
  | ffiDecl m n a =>
    simp [expandExpr,
      applyFirstNotation_eq_none_of_not_infix_node nots (.ffiDecl m n a)
        (by simp [isInfixNode])]
  | infixOp l op r => simp [isInfixNode] at h
  | notationDecl pat2 ex =>
    simp [expandExpr,
      applyFirstNotation_eq_none_of_not_infix_node nots (.notationDecl pat2 ex)
        (by simp [isInfixNode])]

/-- Witness for `match_pattern_only_infix_nodes` at a concrete non-infix
node and a concrete declared notation. -/

theorem match_pattern_only_infix_nodes_witness :
    matchPattern (.var "v") (.mk "$x + $y" ["x", "y"] Option.none .none) = none ∧
    headTag (expandExpr
      [⟨.mk "$x + $y" ["x", "y"] Option.none .none, .var "y"⟩] (.var "v")) =
      headTag (.var "v") :=
  match_pattern_only_infix_nodes (.var "v")
    (.mk "$x + $y" ["x", "y"] Option.none .none)
    [⟨.mk "$x + $y" ["x", "y"] Option.none .none, .var "y"⟩] rfl

/-! # Claim C6 -/

/-- C6 counterexample: notation expansion is not idempotent.  With the single
declaration `notation "$x + $y" with x, y := f(x + y)` the program `1 + 2`
expands to `f(1 + 2)`; running the expansion pass again (same declaration
still available) rewrites the reintroduced `+` and yields `f(f(1 + 2))`. -/

theorem expansion_not_idempotent_cex :
    applyNotations
      (.notationDecl (.mk "$x + $y" ["x", "y"] Option.none .none)
          (.functionCall (.var "f") [.infixOp (.var "x") "+" (.var "y")]) ::
        applyNotations
          [.notationDecl (.mk "$x + $y" ["x", "y"] Option.none .none)
              (.functionCall (.var "f") [.infixOp (.var "x") "+" (.var "y")]),
            .infixOp (.prim (.int 1)) "+" (.prim (.int 2))]) ≠
    applyNotations
      [.notationDecl (.mk "$x + $y" ["x", "y"] Option.none .none)
          (.functionCall (.var "f") [.infixOp (.var "x") "+" (.var "y")]),
        .infixOp (.prim (.int 1)) "+" (.prim (.int 2))] := by
  intro h
  have h' :
      [Expr.functionCall (.var "f")
          [.functionCall (.var "f")
            [.infixOp (.prim (.int 1)) "+" (.prim (.int 2))]]] =
      [Expr.functionCall (.var "f")
          [.infixOp (.prim (.int 1)) "+" (.prim (.int 2))]] := h
  simp at h'

/-- C6 (amended): expansion is idempotent only on outputs in which no
`InfixOp` subterm still matches a declared notation.  If every expression in
`es` is match-free with respect to the declared rules, re-running the
expansion pass (same notation declarations prepended) returns `es`
unchanged; when a notation's expansion reintroduces a matching infix
operator a second pass rewrites further (see the counterexample). -/

theorem second_expansion_pass_is_identity (ds es : List Expr)
    (h1 : ds.all isNotationDecl = true)
    (h2 : es.all (fun e => !isNotationDecl e) = true)
    (h3 : matchFreeList (notationRules ds) es = true) :
    applyNotations (ds ++ es) = es := by
  unfold applyNotations
  rw [partition_append_of_all isNotationDecl ds es h1 h2]
  exact expandExprList_id_of_matchFree (notationRules ds) es h3

/-- Witness for `second_expansion_pass_is_identity`: re-expanding the
already-expanded output `add(1, 2)` with its declaration still available is
a no-op. -/

theorem second_expansion_pass_is_identity_witness :
    applyNotations
      ([.notationDecl (.mk "$x + $y" ["x", "y"] Option.none .none)
          (.functionCall (.var "add") [.var "x", .var "y"])] ++
        [.functionCall (.var "add") [.prim (.int 1), .prim (.int 2)]]) =
    [.functionCall (.var "add") [.prim (.int 1), .prim (.int 2)]] :=
  second_expansion_pass_is_identity
    [.notationDecl (.mk "$x + $y" ["x", "y"] Option.none .none)
        (.functionCall (.var "add") [.var "x", .var "y"])]
    [.functionCall (.var "add") [.prim (.int 1), .prim (.int 2)]]
    rfl rfl rfl

/-! # Claim C5 -/

/-- C5 counterexample: the two variables declared with `with` are irrelevant
to matching.  A declared notation whose pattern text `"$a + $b"`
interpolates the operator between its two declared placeholder slots `a, b`
never matches `1 + 2`: `match_pattern` compares the pattern text against the
hard-coded template `"$x + $y"`, so the node is left unchanged instead of
being rewritten to `add(1, 2)` with `a ↦ 1, b ↦ 2`. -/

theorem declared_variables_not_bound_cex :
    matchPattern (.infixOp (.prim (.int 1)) "+" (.prim (.int 2)))
      (.mk "$a + $b" ["a", "b"] Option.none .none) = none ∧
    expandExpr
      [⟨.mk "$a + $b" ["a", "b"] Option.none .none,
        .functionCall (.var "add") [.var "a", .var "b"]⟩]
      (.infixOp (.prim (.int 1)) "+" (.prim (.int 2))) =
    .infixOp (.prim (.int 1)) "+" (.prim (.int 2)) :=
  ⟨rfl, rfl⟩

/-- C5 (amended): matching an `InfixOp(left, op, right)` against a declared
pattern succeeds exactly when the pattern text is the literal template
`"$x <op> $y"`, and the bindings are always the hard-coded names `"x" ↦
left` and `"y" ↦ right`, regardless of the names declared with `with`.
Substitution replaces exactly the bound variable names, recursing into
function calls and infix expressions; a variable with no binding passes
through as a free reference, and every other node kind is left unchanged. -/

theorem match_binds_x_y_and_substitution (pat : NotationPattern)
    (l r : Expr) (op : String) (b : List (String × Expr)) :
    (matchPattern (.infixOp l op r) pat = some b ↔
      (pat.patternText = "$x " ++ op ++ " $y" ∧ b = [("x", l), ("y", r)])) ∧
    (∀ name e, bindingsGet b name = some e →
      expandNotationTemplate (.var name) b = e) ∧
    (∀ name, bindingsGet b name = none →
      expandNotationTemplate (.var name) b = .var name) ∧
    (∀ f args, expandNotationTemplate (.functionCall f args) b =
      .functionCall (expandNotationTemplate f b) (expandNotationList args b)) ∧
    (∀ l2 op2 r2, expandNotationTemplate (.infixOp l2 op2 r2) b =
      .infixOp (expandNotationTemplate l2 b) op2 (expandNotationTemplate r2 b)) ∧
    (∀ e, isVarNode e = false → isCallNode e = false → isInfixNode e = false →
      expandNotationTemplate e b = e) := by
  refine ⟨?_, ?_, ?_, ?_, ?_, ?_⟩
  · constructor
    · intro h
      by_cases hp : pat.patternText == "$x " ++ op ++ " $y"
      · simp [matchPattern, hp] at h
        exact ⟨by simpa using hp, h.symm⟩
      · simp [matchPattern, hp] at h
    · rintro ⟨hp, hb⟩
      simp [matchPattern, hp, hb]
  · intro name e h
    simp [expandNotationTemplate, h]
  · intro name h
    simp [expandNotationTemplate, h]
  · intro f args
    rfl
  · intro l2 op2 r2
    rfl
  · intro e hv hc hi
    cases e
    case var name => simp [isVarNode] at hv
    case functionCall f args => simp [isCallNode] at hc
    case infixOp l2 op2 r2 => simp [isInfixNode] at hi
    all_goals rfl

/-- Witness for `match_binds_x_y_and_substitution` at concrete inputs:
`1 + 2` against the pattern `"$x + $y"` binds `x ↦ 1, y ↦ 2`; a bound
variable is substituted, an unbound one passes through, a literal is left
unchanged. -/

theorem match_binds_x_y_and_substitution_witness :
    matchPattern (.infixOp (.prim (.int 1)) "+" (.prim (.int 2)))
      (.mk "$x + $y" ["x", "y"] Option.none .none) =
      some [("x", .prim (.int 1)), ("y", .prim (.int 2))] ∧
    expandNotationTemplate (.var "x") [("x", .prim (.int 1)), ("y", .prim (.int 2))] =
      .prim (.int 1) ∧
    expandNotationTemplate (.var "z") [("x", .prim (.int 1)), ("y", .prim (.int 2))] =
      .var "z" ∧
    expandNotationTemplate (.prim (.bool true))
      [("x", .prim (.int 1)), ("y", .prim (.int 2))] = .prim (.bool true) :=
  ⟨(match_binds_x_y_and_substitution
      (.mk "$x + $y" ["x", "y"] Option.none .none)
      (.prim (.int 1)) (.prim (.int 2)) "+"
      [("x", .prim (.int 1)), ("y", .prim (.int 2))]).1.mpr ⟨rfl, rfl⟩,
    (match_binds_x_y_and_substitution
      (.mk "$x + $y" ["x", "y"] Option.none .none)
      (.prim (.int 1)) (.prim (.int 2)) "+"
      [("x", .prim (.int 1)), ("y", .prim (.int 2))]).2.1 "x" _ rfl,
    (match_binds_x_y_and_substitution
      (.mk "$x + $y" ["x", "y"] Option.none .none)
      (.prim (.int 1)) (.prim (.int 2)) "+"
      [("x", .prim (.int 1)), ("y", .prim (.int 2))]).2.2.1 "z" rfl,
    (match_binds_x_y_and_substitution
      (.mk "$x + $y" ["x", "y"] Option.none .none)
      (.prim (.int 1)) (.prim (.int 2)) "+"
      [("x", .prim (.int 1)), ("y", .prim (.int 2))]).2.2.2.2.2
      (.prim (.bool true)) rfl rfl rfl⟩

/-! # Claim C4 -/

/-- C4: parsing the 20-digit integer literal `99999999999999999999` panics
instead of returning a typed `ParseError`: the literal exceeds the `i64`
range, `s.parse::<i64>()` returns `Err`, and `parse_int`'s `.unwrap()`
panics, unwinding through the whole parser. -/

theorem parse_bigint_literal_panics :
    rustParseI64 "99999999999999999999".toList = none ∧
    parseBaseProgram 9 "99999999999999999999".toList = .panic ∧
    parseProgram 9 "99999999999999999999" = .panicked :=
  ⟨rfl, rfl, rfl⟩

/-! # Claim C7 -/

/-- C7: `parse_program` succeeds only when it consumes the entire input —
`all_consuming` turns any successful parse with a non-empty remainder into a
parse error, so a successful result always has an empty remainder and a
trailing non-consumable remainder can never yield a silent partial result. -/

theorem parse_success_consumes_all (fuel : Nat) (s rest : List Char)
    (ast : List Expr) (h : parseBaseProgram fuel s = .ok rest ast) :
    rest = [] := by
  unfold parseBaseProgram contextP allConsumingP at h
  cases hin : delimitedP ws (many1P (parseTopLevelExprP (parseExpr fuel))) ws s with
  | ok r a =>
    rw [hin] at h
    by_cases hr : r.isEmpty
    · simp only [hr, if_true] at h
      cases h
      simpa using hr
    · simp [hr] at h
  | err => rw [hin] at h; cases h
  | panic => rw [hin] at h; cases h

/-- Witness for `parse_success_consumes_all`: the program `1` parses
successfully and indeed leaves no remainder. -/

theorem parse_success_consumes_all_witness :
    parseBaseProgram 9 "1".toList = .ok [] [Expr.prim (Primitive.int 1)] ∧
    ([] : List Char) = [] :=
  ⟨rfl, parse_success_consumes_all 9 "1".toList [] [Expr.prim (Primitive.int 1)] rfl⟩

/-! # Claim C1 -/

/-- C1 counterexample: applying a two-parameter function to one argument
does not return a `PartialApplication` — `apply_function` in
`interpreter/evaluator.rs` rejects any arity difference (`args.len() !=
params.len()`) with `ArityMismatch`, so currying is impossible and the
currying law fails at its first step. -/

theorem fewer_args_arity_error_cex :
    applyFunctionW (evalExpr trivialSurface 5) trivialSurface initialState
      (Value.function "f" ["a", "b"] [] 0) [Value.primitive (.int 7)] =
    some (.error (.arityMismatch "Function 'f' expects 2 arguments, but got 1"),
      initialState) := rfl

/-- C1 (amended): in the current evaluator, applying a `Function` value to
an argument list whose length differs from the parameter list — fewer as
well as more — fails with `ArityMismatch` naming the function; no
`PartialApplication` is ever created by application.  (Currying existed only
in the earlier `interpreter.rs` snapshot, whose `apply_function` returned
`PartialApplication` for fewer arguments.) -/

theorem apply_function_arity_mismatch (ev : InterpState → Expr → EvalOutcome)
    (surf : ExternalSurface) (st : InterpState) (name : String)
    (params : List String) (body : List Expr) (closureEnv : Nat)
    (args : List Value) (h : args.length ≠ params.length) :
    applyFunctionW ev surf st (.function name params body closureEnv) args =
    some (.error (.arityMismatch ("Function '" ++ name ++ "' expects " ++
      toString params.length ++ " arguments, but got " ++
      toString args.length)), st) := by
  simp [applyFunctionW, bne_iff_ne, h]

/-- Witness for `apply_function_arity_mismatch` at a concrete partial
application attempt (Scenario C's `f(a,b)` applied to `1`). -/

theorem apply_function_arity_mismatch_witness :
    (1 : Nat) ≠ 2 ∧
    applyFunctionW (evalExpr trivialSurface 5) trivialSurface initialState
      (Value.function "g" ["a", "b"] [.var "a"] 0) [Value.primitive (.int 1)] =
    some (.error (.arityMismatch "Function 'g' expects 2 arguments, but got 1"),
      initialState) :=
  ⟨by decide,
    apply_function_arity_mismatch (evalExpr trivialSurface 5) trivialSurface
      initialState "g" ["a", "b"] [.var "a"] 0 [Value.primitive (.int 1)]
      (by decide)⟩

/-! # Claim C2 -/

/-- C2: the caller's environment is not restored after a call.
`apply_function` redirects `self.env` to the callee's freshly built
environment and never switches back, so after `f(a) { a }; f(2)` the
caller-scope lookup of `a` succeeds with `2` — the callee's parameter
binding leaks into the caller — instead of failing with
`UndefinedVariable("a")` as the claim requires. -/

theorem callee_param_binding_leaks_into_caller :
    interpret 20 trivialSurface
      [.functionDef "f" ["a"] [.var "a"],
        .functionCall (.var "f") [.prim (.int 2)],
        .var "a"] = some (.ok (Value.primitive (.int 2))) := rfl

/-! # Claim C8 -/

/-- C8 counterexample: an `InfixOp` reaching the evaluator fails with the
`NotReachable` variant ("Infix operations should be handled by the parser"),
not a variant named `UnhandledOperator` — `InterpreterError` has no such
variant (its five variants are `UndefinedVariable`, `TypeMismatch`,
`ArityMismatch`, `FFIError`, `NotReachable`). -/

theorem infix_op_error_is_not_reachable_cex :
    evalExpr trivialSurface 5 initialState
      (.infixOp (.prim (.int 1)) "+" (.prim (.int 2))) =
    some (.error (.notReachable
      "Infix operations should be handled by the parser"), initialState) := rfl

/-- C8 (amended): every `InfixOp` expression that reaches the evaluator
fails — without evaluating its operands — with the `NotReachable`
runtime-error variant carrying "Infix operations should be handled by the
parser"; the evaluator defines no built-in operator semantics of its own. -/

theorem infix_op_eval_not_reachable (surf : ExternalSurface) (n : Nat)
    (st : InterpState) (l r : Expr) (op : String) :
    evalExpr surf (n + 1) st (.infixOp l op r) =
    some (.error (.notReachable
      "Infix operations should be handled by the parser"), st) := rfl

/-! # Claim C3 -/

theorem list_getD_append_self {α : Type} (l : List α) (a d : α) :
    (l ++ [a]).getD l.length d = a := by
  induction l with
  | nil => rfl
  | cons x xs ih => exact ih

theorem list_getD_append_left {α : Type} (l l' : List α) (n : Nat) (d : α)
    (h : n < l.length) : (l ++ l').getD n d = l.getD n d := by
  induction l generalizing n with
  | nil => simp at h
  | cons x xs ih =>
    cases n with
    | zero => rfl
    | succ k =>
      have : k < xs.length := by simpa using h
      simpa using ih k this

theorem evalExpr_functionCall_succ (surf : ExternalSurface) (n : Nat)
    (st : InterpState) (f : Expr) (args : List Expr) :
    evalExpr surf (n + 1) st (.functionCall f args) =
      (match evalExpr surf n st f with
      | none => none
      | some (.error er, st1) => some (.error er, st1)
      | some (.ok fv, st1) =>
        match evalArgsWith (evalExpr surf n) st1 args with
        | none => none
        | some (.error er, st2) => some (.error er, st2)
        | some (.ok av, st2) =>
          applyFunctionW (evalExpr surf n) surf st2 fv av) := rfl

theorem evalBodyWith_single (ev : InterpState → Expr → EvalOutcome)
    (st : InterpState) (e : Expr) :
    evalBodyWith ev st [e] =
      (match ev st e with
      | none => none
      | some (.error er, st1) => some (.error er, st1)
      | some (.ok v, st1) => some (.ok v, st1)) := by
  cases h : ev st e with
  | none => simp [evalBodyWith, h]
  | some r =>
    match r with
    | (.error er, st1) => simp [evalBodyWith, h]
    | (.ok v, st1) => simp [evalBodyWith, h]

theorem evalExpr_loopCall_none (surf : ExternalSurface) :
    ∀ (n : Nat) (st : InterpState),
      envGet (heapGet st st.cur) "f" = some loopF →
      envGet (heapGet st 0) "f" = some loopF →
      evalExpr surf n st loopCall = none := by
  intro n
  induction n with
  | zero => intro st _ _; rfl
  | succ m ih =>
    intro st h1 h2
    cases m with
    | zero => simp [loopCall, evalExpr]
    | succ k =>
      have hheap : st.heap ≠ [] := by
        intro hnil
        rw [show heapGet st 0 = [] by simp [heapGet, hnil]] at h2
        simp [envGet] at h2
      have hlen : 0 < st.heap.length := by
        cases hh : st.heap with
        | nil => exact absurd hh hheap
        | cons a l => simp [hh]
      have hc : evalExpr surf (k + 1) st (.var "f") = some (.ok loopF, st) := by
        simp [evalExpr, h1]
      have hargs : evalArgsWith (evalExpr surf (k + 1)) st ([] : List Expr) =
          some (.ok [], st) := rfl
      set st2 : InterpState :=
        { st with heap := st.heap ++ [heapGet st 0], cur := st.heap.length }
        with hst2
      have h1' : envGet (heapGet st2 st2.cur) "f" = some loopF := by
        rw [hst2]
        simp only [heapGet]
        rw [list_getD_append_self]
        exact h2
      have h2' : envGet (heapGet st2 0) "f" = some loopF := by
        rw [hst2]
        simp only [heapGet]
        rw [list_getD_append_left _ _ _ _ hlen]
        exact h2
      have hbody := ih st2 h1' h2'
      show evalExpr surf (k + 1 + 1) st (.functionCall (.var "f") []) = none
      rw [evalExpr_functionCall_succ, hc]
      show evalBodyWith (evalExpr surf (k + 1)) st2 [loopCall] = none
      rw [evalBodyWith_single, hbody]

/-- C3: there is no call-depth counter.  Scenario F's program
`f() { f() } f()` never produces any result at any host-stack depth — in
particular never a `StackOverflow` error, a variant `InterpreterError` does
not even have.  In Rust the recursion simply continues until the host stack
is exhausted (a process crash), or, when the debug printer is enabled, until
its thread-local counter panics at depth 1000 ("Maximum recursion depth
exceeded") — a panic, not a typed result. -/

theorem unbounded_recursion_never_returns (n : Nat) (surf : ExternalSurface) :
    interpret n surf loopProgram = none := by
  cases n with
  | zero => rfl
  | succ m =>
    have h := evalExpr_loopCall_none surf (m + 1) ⟨[[("f", loopF)]], 0, []⟩
      rfl rfl
    have step1 : interpret (m + 1) surf loopProgram =
        interpretGo surf (m + 1) ⟨[[("f", loopF)]], 0, []⟩ loopF [loopCall] := rfl
    have step2 : interpretGo surf (m + 1) ⟨[[("f", loopF)]], 0, []⟩ loopF
        [loopCall] =
        (match evalExpr surf (m + 1) ⟨[[("f", loopF)]], 0, []⟩ loopCall with
        | none => none
        | some (.error er, _) => some (.error er)
        | some (.ok v, st1) => interpretGo surf (m + 1) st1 v []) := rfl
    rw [step1, step2, h]

/-! # Claim C9 -/

/-- C9: `from python use square; square(5)` never receives the external
surface's result.  The extern declaration loads the `python` backend and
binds `square ↦ Value::Ffi("square")` — the bare function name, not a
language-qualified path — and returns `true`; but `FFIBackend::call_function`
then splits the *language* off that bare name, looks up a backend under
`"square"`, and fails with `FFIError("Language not loaded: square")`
whatever the surface would report for `square(5)`. -/

theorem extern_square_call_language_not_loaded (surf : ExternalSurface)
    (hc : surf.create = .ok ()) (hl : surf.load "" Option.none = .ok ()) :
    interpret 20 surf squareProgram =
    some (.error (.ffiError "Language not loaded: square")) := by
  have hload : ffiLoadModule surf initialState "python" =
      (.ok (), ⟨[[]], 0, ["python"]⟩) := by
    show (match
        (match surf.create with
        | Except.ok _ =>
          (Except.ok ({ heap := [[]], cur := 0, ffiLoaded := ["python"] } :
            InterpState) : Except String InterpState)
        | Except.error e => Except.error e) with
      | Except.error e => ((Except.error e : Except String Unit), initialState)
      | Except.ok st' =>
        match surf.load "" Option.none with
        | Except.ok _ => ((Except.ok () : Except String Unit), st')
        | Except.error e => (Except.error e, st')) =
      ((Except.ok (), (⟨[[]], 0, ["python"]⟩ : InterpState)) :
        Except String Unit × InterpState)
    rw [hc, hl]
  have hst1 : evalExpr surf 20 initialState
      (.ffiDecl "python" "square" Option.none) =
      some (.ok (Value.primitive (.bool true)),
        ⟨[[("square", Value.ffi "square")]], 0, ["python"]⟩) := by
    show (match ffiLoadModule surf initialState "python" with
      | (Except.error e, st1) =>
        some (Except.error (InterpreterError.ffiError e), st1)
      | (Except.ok _, st1) =>
        some (Except.ok (Value.primitive (.bool true)),
          insertCur st1 "square" (Value.ffi "square"))) =
      (some (Except.ok (Value.primitive (.bool true)),
        (⟨[[("square", Value.ffi "square")]], 0, ["python"]⟩ : InterpState)) :
        EvalOutcome)
    rw [hload]
    rfl
  show (match evalExpr surf 20 initialState
      (.ffiDecl "python" "square" Option.none) with
    | none => none
    | some (Except.error er, _) => some (Except.error er)
    | some (Except.ok v, st1) =>
      interpretGo surf 20 st1 v
        [.functionCall (.var "square") [.prim (.int 5)]]) =
    some (Except.error (InterpreterError.ffiError "Language not loaded: square"))
  rw [hst1]
  rfl

/-- Witness for `extern_square_call_language_not_loaded`: a concrete surface
that would report `25` for `square(5)`, yet the interpreter returns the
`FFIError` instead of that result. -/

theorem extern_square_call_language_not_loaded_witness :
    (ExternalSurface.mk (.ok ()) (fun _ _ => .ok ())
        (fun _ _ => .ok (Value.primitive (.int 25)))).call "square"
      [Value.primitive (.int 5)] = .ok (Value.primitive (.int 25)) ∧
    interpret 20
      (ExternalSurface.mk (.ok ()) (fun _ _ => .ok ())
        (fun _ _ => .ok (Value.primitive (.int 25)))) squareProgram =
    some (.error (.ffiError "Language not loaded: square")) :=
  ⟨rfl,
    extern_square_call_language_not_loaded
      (ExternalSurface.mk (.ok ()) (fun _ _ => .ok ())
        (fun _ _ => .ok (Value.primitive (.int 25)))) rfl rfl⟩
